import Mathlib

set_option autoImplicit false
set_option maxRecDepth 100000

/-!
# Interactive-Map: feature decompression, filtering, listing, popups, entry-script detection

A shallow embedding of `scripts/features.js`, `scripts/map.js` and `build.mjs`.

Conventions of the embedding:
* a JavaScript optional field (`string=`) is an `Option`; `none` is `undefined`/absent;
* a `properties` object is an association list in insertion order, read with `Properties.get`
  (`obj[key]`, `none` for `undefined`) and written with `Properties.set` (`obj[key] = v`);
* the numeric type of coordinates is a parameter `N`; wherever the code renders a number into a
  string, the rendering function is a parameter as well;
* the popup array holds the popups ever pushed, each with the flag saying whether it is still
  attached to the map.
-/

namespace InteractiveMap

/-! ## scripts/features.js -/

/-- Keys of the frozen object `FOCUS_AREAS`, in declaration order. -/
inductive FOCUS_AREAS where
  | ENVRIONMENT
  | HEALTH
  | COMMUNITY
  | EDUCATION
  deriving DecidableEq, Repr

/-- String carried by each key of `FOCUS_AREAS`. -/
def FOCUS_AREAS.value : FOCUS_AREAS → String
  | .ENVRIONMENT => "ENVIRONMENT"
  | .HEALTH => "HEALTH"
  | .COMMUNITY => "COMMUNITY"
  | .EDUCATION => "EDUCATION"

/-- Result of `Object.values(FOCUS_AREAS)`. -/
def FOCUS_AREAS.values : List String :=
  [FOCUS_AREAS.ENVRIONMENT.value, FOCUS_AREAS.HEALTH.value,
   FOCUS_AREAS.COMMUNITY.value, FOCUS_AREAS.EDUCATION.value]

/-- Keys of the frozen object `FUNDED_STATUS`, in declaration order. -/
inductive FUNDED_STATUS where
  | INCUBATOR
  | PITCHED
  | FUNDED
  deriving DecidableEq, Repr

/-- String carried by each key of `FUNDED_STATUS`. -/
def FUNDED_STATUS.value : FUNDED_STATUS → String
  | .INCUBATOR => "INCUBATOR"
  | .PITCHED => "PITCHED"
  | .FUNDED => "FUNDED"

/-- Result of `Object.values(FUNDED_STATUS)`. -/
def FUNDED_STATUS.values : List String :=
  [FUNDED_STATUS.INCUBATOR.value, FUNDED_STATUS.PITCHED.value, FUNDED_STATUS.FUNDED.value]

/-- Element type of the `features` table: `title` and `coordinates` are required, the other
fields are optional, `focusArea` and `fundedStatus` range over the two enums. -/
structure CompactFeature (N : Type) where
  title : String
  coordinates : List N
  description : Option String
  websiteURL : Option String
  focusArea : Option FOCUS_AREAS
  fundedStatus : Option FUNDED_STATUS
  deriving DecidableEq, Repr

/-! ## scripts/map.js : GeoJSON features -/

/-- A `properties` object: string keys, string values, insertion order. -/
abbrev Properties := List (String × String)

/-- Property read `obj[key]`; `none` stands for `undefined`. -/
def Properties.get (p : Properties) (key : String) : Option String :=
  List.lookup key p

/-- Property write `obj[key] = v`: overwrite in place, or append a new key. -/
def Properties.set (p : Properties) (key v : String) : Properties :=
  if p.any (fun kv => kv.1 == key) then
    p.map (fun kv => if kv.1 == key then (key, v) else kv)
  else p ++ [(key, v)]

/-- Own keys of a `properties` object. -/
def Properties.keys (p : Properties) : List String := p.map Prod.fst

/-- The `geometry` member of a GeoJSON feature. -/
structure Geometry (N : Type) where
  type : String
  coordinates : List N
  deriving DecidableEq, Repr

/-- A GeoJSON feature. -/
structure Feature (N : Type) where
  type : String
  properties : Properties
  geometry : Geometry N
  deriving DecidableEq, Repr

/-- Body of the arrow function mapped by `decompressFeatures` (map.js 27-44). -/
def decompressFeature {N : Type} (compressedFeature : CompactFeature N) : Feature N :=
  let decompressed : Feature N :=
    { type := "Feature"
      properties := [("title", compressedFeature.title)]
      geometry := { type := "Point", coordinates := compressedFeature.coordinates } }
  let decompressed : Feature N :=
    match compressedFeature.description with
    | some d => { decompressed with properties := decompressed.properties.set "description" d }
    | none => decompressed
  let decompressed : Feature N :=
    match compressedFeature.websiteURL with
    | some u =>
      if u ≠ "" then
        { decompressed with properties := decompressed.properties.set "websiteURL" u }
      else decompressed
    | none => decompressed
  let decompressed : Feature N :=
    match compressedFeature.focusArea with
    | some a =>
      { decompressed with properties := decompressed.properties.set "focusArea" a.value }
    | none => decompressed
  let decompressed : Feature N :=
    match compressedFeature.fundedStatus with
    | some s =>
      { decompressed with properties := decompressed.properties.set "fundedStatus" s.value }
    | none => decompressed
  decompressed

/-- Function `decompressFeatures` (map.js 26-45): `compressedFeatures.map(...)`. -/
def decompressFeatures {N : Type} (compressedFeatures : List (CompactFeature N)) :
    List (Feature N) :=
  compressedFeatures.map decompressFeature

/-- Names of the optional properties copied by `decompressFeatures`. -/
def optionalKeys : List String := ["description", "websiteURL", "focusArea", "fundedStatus"]

/-- Source field `compressedFeature[key]` for the four optional keys, as the string it holds:
the accessor used to state what is copied. -/
def CompactFeature.field {N : Type} (c : CompactFeature N) (key : String) : Option String :=
  if key = "description" then c.description
  else if key = "websiteURL" then c.websiteURL
  else if key = "focusArea" then c.focusArea.map FOCUS_AREAS.value
  else if key = "fundedStatus" then c.fundedStatus.map FUNDED_STATUS.value
  else none

/-! ## scripts/map.js : filter controls and `updateLayerFilter` -/

/-- A checkbox of the filter group: its `id` and its `checked` flag. -/
structure Input where
  id : String
  checked : Bool
  deriving DecidableEq, Repr

/-- Function `addOptionsToNavbar` (map.js 347-377) on the list of inputs of `filterGroup`:
one checked checkbox per distinct value of `optionsObj`, appended after the existing ones. -/
def addOptionsToNavbar (optionsValues : List String) (filterGroup : List Input) : List Input :=
  let symbols := optionsValues.eraseDups
  filterGroup ++ symbols.map (fun symbol => { id := symbol, checked := true })

/-- Function `createFilterNavbar` (map.js 337-340). -/
def createFilterNavbar (filterGroup : List Input) : List Input :=
  addOptionsToNavbar FUNDED_STATUS.values (addOptionsToNavbar FOCUS_AREAS.values filterGroup)

/-- Constant `checkedSymbols` of `updateLayerFilter` (map.js 166-168). -/
def checkedSymbols (inputs : List Input) : List String :=
  (inputs.filter (fun input => input.checked)).map (fun input => input.id)

/-- Constant `propertiesToFilter` of `updateLayerFilter` (map.js 170). -/
def propertiesToFilter : List String := ["fundedStatus", "focusArea"]

/-- Function `updateLayerFilter` (map.js 165-180): the `features` of `filteredData`, the list
handed to `setData`. -/
def updateLayerFilter {N : Type} (inputs : List Input) (geojsonFeatures : List (Feature N)) :
    List (Feature N) :=
  geojsonFeatures.filter (fun feature =>
    propertiesToFilter.all (fun property =>
      match feature.properties.get property with
      | none => true
      | some value => (checkedSymbols inputs).contains value))

/-- The two tracked tag categories. -/
inductive Category where
  | focusArea
  | fundedStatus
  deriving DecidableEq, Repr

/-- Property name of a category. -/
def Category.property : Category → String
  | .focusArea => "focusArea"
  | .fundedStatus => "fundedStatus"

/-- Full known value set of a category. -/
def Category.knownValues : Category → List String
  | .focusArea => FOCUS_AREAS.values
  | .fundedStatus => FUNDED_STATUS.values

/-- The other category. -/
def Category.other : Category → Category
  | .focusArea => .fundedStatus
  | .fundedStatus => .focusArea

/-- Enabled set of a category, in the words of the specification: the values of that category
whose checkbox is checked. -/
def enabledSet (c : Category) (inputs : List Input) : List String :=
  c.knownValues.filter (fun v => (checkedSymbols inputs).contains v)

/-- Filter test of the specification for one category: the feature lacks the property, or its
value is in the enabled set of that category. -/
def passesCategory {N : Type} (inputs : List Input) (feature : Feature N) (c : Category) : Prop :=
  feature.properties.get c.property = none ∨
    ∃ value, feature.properties.get c.property = some value ∧ value ∈ enabledSet c inputs

/-- A feature whose tracked properties, when present, hold a value of their own enum: what
the declared types of `features.js` give after decompression. -/
def WellTyped {N : Type} (feature : Feature N) : Prop :=
  ∀ c : Category, ∀ value, feature.properties.get c.property = some value →
    value ∈ c.knownValues

/-! ## scripts/map.js : `updateVisibleFeatures` -/

/-- Template substitution of a possibly undefined string. -/
def templateString : Option String → String
  | some s => s
  | none => "undefined"

/-- String conversion of an array of numbers: the elements joined with a comma. -/
def arrayToString {N : Type} (numToString : N → String) (xs : List N) : String :=
  String.intercalate "," (xs.map numToString)

/-- Constant `key` of the dedup filter (map.js 204). -/
def featureKey {N : Type} (numToString : N → String) (feature : Feature N) : String :=
  arrayToString numToString feature.geometry.coordinates ++ "-" ++
    templateString (feature.properties.get "title")

/-- The filter callback of map.js 203-211 run over the features in order; the first argument is
the content of `uniqueFeatureKeys` so far. -/
def uniqueFilter {N : Type} (numToString : N → String) :
    List String → List (Feature N) → List (Feature N)
  | _, [] => []
  | uniqueFeatureKeys, feature :: rest =>
    if uniqueFeatureKeys.contains (featureKey numToString feature) then
      uniqueFilter numToString uniqueFeatureKeys rest
    else
      feature :: uniqueFilter numToString
        (uniqueFeatureKeys ++ [featureKey numToString feature]) rest

/-- Constant `uniqueFeatures` of `updateVisibleFeatures` (map.js 202-211). -/
def uniqueFeatures {N : Type} (numToString : N → String) (visibleFeatures : List (Feature N)) :
    List (Feature N) :=
  uniqueFilter numToString [] visibleFeatures

/-- An anchor appended to the feature listing, with the feature its click listener captures. -/
structure ListingItem (N : Type) where
  href : String
  textContent : String
  feature : Feature N
  deriving DecidableEq, Repr

/-- Function `updateVisibleFeatures` (map.js 196-233): the children of `feature-listing` after
the call. -/
def updateVisibleFeatures {N : Type} (numToString : N → String)
    (visibleFeatures : List (Feature N)) : List (ListingItem N) :=
  (uniqueFeatures numToString visibleFeatures).filterMap (fun feature =>
    match feature.properties.get "title" with
    | none => none
    | some title => some { href := "#", textContent := title, feature := feature })

/-! ## scripts/map.js : popups -/

/-- A popup object: where it is anchored, its HTML, and whether it is attached to the map. -/
structure Popup (N : Type) where
  lngLat : List N
  html : String
  onMap : Bool
  deriving DecidableEq, Repr

/-- JavaScript truthiness of a possibly undefined string. -/
def truthy : Option String → Bool
  | some s => s != ""
  | none => false

/-- Function `createPopupForFeature` (map.js 148-156): the popup returned and the array
`popups` after the push. -/
def createPopupForFeature {N : Type} (popups : List (Popup N)) (feature : Feature N) :
    Popup N × List (Popup N) :=
  let coordinates := feature.geometry.coordinates
  let title := "<strong>" ++ templateString (feature.properties.get "title") ++ "</strong>"
  let description :=
    if truthy (feature.properties.get "description") then
      "<p>" ++ templateString (feature.properties.get "description") ++ "</p>"
    else ""
  let website :=
    if truthy (feature.properties.get "websiteURL") then
      "<p><a href=\"" ++ templateString (feature.properties.get "websiteURL") ++
        "\">Website</a></p>"
    else ""
  let popup : Popup N := { lngLat := coordinates, html := title ++ description ++ website,
                           onMap := true }
  (popup, popups ++ [popup])

/-- Function `clearAllPopups` (map.js 161-163): every popup of the array is removed from the
map; the array keeps its elements. -/
def clearAllPopups {N : Type} (popups : List (Popup N)) : List (Popup N) :=
  popups.map (fun popup => { popup with onMap := false })

/-- Popups of the array that are displayed. -/
def displayed {N : Type} (popups : List (Popup N)) : List (Popup N) :=
  popups.filter (fun popup => popup.onMap)

/-- Argument of `map.easeTo`. -/
structure EaseTo (N : Type) where
  center : List N
  duration : Nat
  deriving DecidableEq, Repr

/-- Click listener of a listing item (map.js 223-230): the `easeTo` command issued and the
array `popups` afterwards. -/
def listingItemClick {N : Type} (popups : List (Popup N)) (feature : Feature N) :
    EaseTo N × List (Popup N) :=
  let command : EaseTo N := { center := feature.geometry.coordinates, duration := 1000 }
  let popups := clearAllPopups popups
  (command, (createPopupForFeature popups feature).2)

/-- Click listener of the layer `unclustered-point` (map.js 259-261): the array `popups`
after `createPopupForFeature(e.features[0])`. -/
def unclusteredPointClick {N : Type} (popups : List (Popup N)) (feature : Feature N) :
    List (Popup N) :=
  (createPopupForFeature popups feature).2

/-- The two user actions whose listeners touch the array `popups`, each with the feature it
is about. -/
inductive PopupEvent (N : Type) where
  | mapClick (feature : Feature N)
  | listingActivation (feature : Feature N)

/-- The array `popups` after the listener of one action has run. -/
def handlePopupEvent {N : Type} (popups : List (Popup N)) : PopupEvent N → List (Popup N)
  | .mapClick feature => unclusteredPointClick popups feature
  | .listingActivation feature => (listingItemClick popups feature).2

/-- The popup constructed (`new mapboxgl.Popup()`) while the listener of one action runs: each
listener calls `createPopupForFeature` once, the only place where a popup is constructed. -/
def popupCreatedBy {N : Type} (popups : List (Popup N)) : PopupEvent N → Popup N
  | .mapClick feature => (createPopupForFeature popups feature).1
  | .listingActivation feature => (createPopupForFeature (clearAllPopups popups) feature).1

/-- The array `popups` after the listeners of a sequence of actions have run in order. -/
def runPopupEvents {N : Type} : List (Popup N) → List (PopupEvent N) → List (Popup N)
  | popups, [] => popups
  | popups, event :: events => runPopupEvents (handlePopupEvent popups event) events

/-- The popups constructed during a sequence of actions, in order of construction. -/
def popupsCreated {N : Type} : List (Popup N) → List (PopupEvent N) → List (Popup N)
  | _, [] => []
  | popups, event :: events =>
    popupCreatedBy popups event :: popupsCreated (handlePopupEvent popups event) events

/-- What identifies a popup apart from its being attached to the map: anchor and content. -/
def Popup.content {N : Type} (popup : Popup N) : List N × String :=
  (popup.lngLat, popup.html)

/-! ## build.mjs : `findEntryScript` and lines 95-107 of `build` -/

/-- Constant `externalModules` (build.mjs 15). -/
def externalModules : List String := ["mapbox-gl"]

/-- One element of a regular expression without alternation: a single character of a class, or
a greedy repetition `*` of a class; `captured` says whether the characters it consumes belong
to capture group 1. -/
inductive Item where
  | chr (p : Char → Bool) (captured : Bool)
  | star (p : Char → Bool) (captured : Bool)

/-- Result of a match: the text of capture group 1 and the input left after the match. -/
abbrev MatchResult := List Char × List Char

/-- Prepends a consumed character to the capture when the item is inside the group. -/
def addCaptured (captured : Bool) (c : Char) (r : MatchResult) : MatchResult :=
  if captured then (c :: r.1, r.2) else r

/-- Backtracking of a greedy `*`: take one more character of the class when that lets the
continuation succeed, otherwise stop here. -/
def starLoop (k : List Char → Option MatchResult) (p : Char → Bool) (captured : Bool) :
    List Char → Option MatchResult
  | [] => k []
  | c :: t =>
    if p c then
      match starLoop k p captured t with
      | some r => some (addCaptured captured c r)
      | none => k (c :: t)
    else k (c :: t)

/-- Backtracking match of a sequence of items at the head of the input. -/
def matchItems : List Item → List Char → Option MatchResult
  | [], s => some ([], s)
  | .chr p captured :: items, s =>
    match s with
    | [] => none
    | c :: t => if p c then (matchItems items t).map (addCaptured captured c) else none
  | .star p captured :: items, s => starLoop (matchItems items) p captured s

/-- Says whether a pattern has a single-character item inside the capture group. -/
def hasCapturedChr : List Item → Bool
  | [] => false
  | .chr _ captured :: items => captured || hasCapturedChr items
  | .star _ _ :: items => hasCapturedChr items

/-- Character comparison under the flag `i`. -/
def ignoreCaseEq (a b : Char) : Bool := a.toUpper == b.toUpper

/-- Items of a literal text matched under the flag `i`. -/
def literal (text : String) : List Item :=
  text.data.map (fun a => Item.chr (fun c => ignoreCaseEq a c) false)

/-- Class `\s`: white space and line terminators. -/
def isWhiteSpace (c : Char) : Bool :=
  let n := c.toNat
  n == 9 || n == 10 || n == 11 || n == 12 || n == 13 || n == 32 || n == 160 || n == 5760 ||
  (8192 ≤ n && n ≤ 8202) || n == 8232 || n == 8233 || n == 8239 || n == 8287 || n == 12288 ||
  n == 65279

/-- Class of the two quote characters, double (34) and single (39). -/
def isQuote (c : Char) : Bool := c.toNat == 34 || c.toNat == 39

/-- Class of the characters other than `>`. -/
def notGt (c : Char) : Bool := c != '>'

/-- Class of the characters other than the two quotes. -/
def notQuote (c : Char) : Bool := !isQuote c

/-- Constant `scriptTagPattern` (build.mjs 34), under the flag `i`: the text `<script`, one
white-space character, any characters but `>` (greedy), the text `src=`, a quote, capture group
1 made of one or more characters that are not quotes (greedy), a quote, any characters but `>`
(greedy), and the text `></script>`. -/
def scriptTagPattern : List Item :=
  literal "<script" ++ [Item.chr isWhiteSpace false, Item.star notGt false] ++ literal "src=" ++
    [Item.chr isQuote false, Item.chr notQuote true, Item.star notQuote true,
     Item.chr isQuote false, Item.star notGt false] ++ literal "></script>"

/-- Method `src.startsWith(text)`. -/
def startsWith (src : List Char) (text : String) : Bool := text.data.isPrefixOf src

/-- Method `src.includes(text)`. -/
def includes (src : List Char) (text : String) : Bool :=
  src.tails.any (fun t => text.data.isPrefixOf t)

/-- Condition of the `if` in `findEntryScript` (build.mjs 38). -/
def isLocalSrc (src : List Char) : Bool :=
  !startsWith src "https://" && !startsWith src "http://" &&
    !externalModules.any (fun module => includes src module)

/-- The `while` loop of `findEntryScript` (build.mjs 36-42) over the input that starts at the
current position; `skip` is `lastIndex` minus the current position, the number of characters
still covered by the previous match. -/
def findEntryScriptLoop : Nat → List Char → Option (List Char)
  | _, [] => none
  | skip + 1, _ :: t => findEntryScriptLoop skip t
  | 0, c :: t =>
    match matchItems scriptTagPattern (c :: t) with
    | some (src, rest) =>
      if isLocalSrc src then some src
      else findEntryScriptLoop ((c :: t).length - rest.length - 1) t
    | none => findEntryScriptLoop 0 t

/-- Function `findEntryScript` (build.mjs 33-43); `none` is `null`. -/
def findEntryScript (html : String) : Option String :=
  (findEntryScriptLoop 0 html.data).map String.mk

/-- What the `while` loop of `findEntryScript` iterates over: the values `match[1]` of the
successive matches of `scriptTagPattern`, each search starting where the previous match ended
(`skip` as in `findEntryScriptLoop`). These are captures of the pattern of the code, not the
`src` attributes of the script elements of the markup. -/
def patternCapturesFrom : Nat → List Char → List (List Char)
  | _, [] => []
  | skip + 1, _ :: t => patternCapturesFrom skip t
  | 0, c :: t =>
    match matchItems scriptTagPattern (c :: t) with
    | some (src, rest) => src :: patternCapturesFrom ((c :: t).length - rest.length - 1) t
    | none => patternCapturesFrom 0 t

/-- The values `match[1]` of all successive matches of `scriptTagPattern` in a template. -/
def patternCaptures (html : String) : List String :=
  (patternCapturesFrom 0 html.data).map String.mk

/-- Lines 95-107 of function `build` (build.mjs): `.ok` holds the value of the variable
`entryScript` when control leaves the `if`/`else` without a throw, `.error` holds the message
of the error thrown at line 106. The rewrites of `html` (`removeNonCdnScripts` at line 101,
`removeScriptTag` at line 109, which builds a `RegExp` from the entry script and may throw)
and everything after line 110 (bundling, file writes) are not part of this definition: `.ok`
does not say that `build` succeeds. -/
def buildEntryScript (entryArg : Option String) (html : String) : Except String String :=
  if truthy entryArg then
    .ok (templateString entryArg)
  else
    let entryScript := findEntryScript html
    if !truthy entryScript then
      .error "No valid entry script found."
    else
      .ok (templateString entryScript)

/-! ## The claim about `findEntryScript`, in its own words -/

/-- A script element of a markup template: its attributes in source order, each a lower-case
name with its value. -/
structure ScriptTag where
  attributes : List (String × String)
  deriving DecidableEq, Repr

/-- The `src` of a script element: the value of its attribute named `src`. -/
def ScriptTag.src (tag : ScriptTag) : Option String := tag.attributes.lookup "src"

/-- Markup of one attribute: a space, the name, the equals sign, the value in double quotes. -/
def renderAttribute (pair : String × String) : String :=
  " " ++ pair.1 ++ "=\"" ++ pair.2 ++ "\""

/-- Markup of a script element with an empty body. -/
def ScriptTag.render (tag : ScriptTag) : String :=
  "<script" ++ String.join (tag.attributes.map renderAttribute) ++ "></script>"

/-- Markup template made of script elements, in document order. -/
def renderTemplate (tags : List ScriptTag) : String :=
  String.join (tags.map ScriptTag.render)

/-- A local `src` in the words of the claim: it starts with neither `http://` nor `https://`
and does not contain the excluded module name `mapbox-gl`. -/
def isLocalReference (src : String) : Bool :=
  decide (¬ ("http://".data <+: src.data) ∧ ¬ ("https://".data <+: src.data) ∧
    ¬ ("mapbox-gl".data <:+: src.data))

/-- What the claim says `findEntryScript` returns: the `src` of the first script element, in
document order, whose `src` is local; `none` when there is no such element. -/
def firstLocalScriptSrc (tags : List ScriptTag) : Option String :=
  (tags.filterMap ScriptTag.src).find? isLocalReference

/-! ## Concrete inputs used in the scenarios -/

/-- Compact feature of the decompression scenario: title `A` at `[1, 2]`, focus area `HEALTH`. -/
def compactA : CompactFeature Int :=
  { title := "A", coordinates := [1, 2], description := none, websiteURL := none,
    focusArea := some FOCUS_AREAS.HEALTH, fundedStatus := none }

/-- Compact feature with an empty description and an empty website URL. -/
def compactEmptyStrings : CompactFeature Int :=
  { title := "A", coordinates := [1, 2], description := some "", websiteURL := some "",
    focusArea := none, fundedStatus := none }

/-- Compact feature with a funded status and no focus area. -/
def compactFunded : CompactFeature Int :=
  { title := "B", coordinates := [3, 4], description := none, websiteURL := none,
    focusArea := none, fundedStatus := some FUNDED_STATUS.FUNDED }

/-- Filter group in which `EDUCATION` is the only focus area checked and every funded status
is checked. -/
def onlyEducation : List Input :=
  [⟨"ENVIRONMENT", false⟩, ⟨"HEALTH", false⟩, ⟨"COMMUNITY", false⟩, ⟨"EDUCATION", true⟩,
   ⟨"INCUBATOR", true⟩, ⟨"PITCHED", true⟩, ⟨"FUNDED", true⟩]

/-- Filter group in which no focus area is checked and `FUNDED` is unchecked. -/
def focusAreasOffFundedOff : List Input :=
  [⟨"ENVIRONMENT", false⟩, ⟨"HEALTH", false⟩, ⟨"COMMUNITY", false⟩, ⟨"EDUCATION", false⟩,
   ⟨"INCUBATOR", true⟩, ⟨"PITCHED", true⟩, ⟨"FUNDED", false⟩]

/-- Rendered feature titled `A` at `[1, 2]`. -/
def renderedA : Feature Int :=
  { type := "Feature", properties := [("title", "A")],
    geometry := { type := "Point", coordinates := [1, 2] } }

/-- Rendered feature titled `B` at `[3, 4]`. -/
def renderedB : Feature Int :=
  { type := "Feature", properties := [("title", "B")],
    geometry := { type := "Point", coordinates := [3, 4] } }

/-- Rendered feature at `[1, 2]` whose properties have no title. -/
def renderedUntitled : Feature Int :=
  { type := "Feature", properties := [("focusArea", "HEALTH")],
    geometry := { type := "Point", coordinates := [1, 2] } }

/-- Decimal rendering of an integer coordinate. -/
def intToString (n : Int) : String := toString n

/-- Markup template with a CDN script tag followed by two local script tags. -/
def templateCdnThenLocal : String :=
  "<script src=\"https://x/mapbox-gl.js\"></script>" ++
    "<SCRIPT type=\"module\" src=\"scripts/map.js\"></script><script src=\"b.js\"></script>"

/-- Markup template whose only script tag refers to a CDN. -/
def templateCdnOnly : String :=
  "<head><script src=\"https://x/mapbox-gl.js\"></script></head>"

/-- Rendered feature at `[1, 2]` whose title is the text `undefined`. -/
def renderedUndefinedTitle : Feature Int :=
  { type := "Feature", properties := [("title", "undefined")],
    geometry := { type := "Point", coordinates := [1, 2] } }

/-- Two script elements: the first has a local `src` and a `data-src` attribute holding a CDN
address, the second has the local `src` `b.js`. -/
def tagsSrcThenDataSrc : List ScriptTag :=
  [{ attributes := [("src", "a.js"), ("data-src", "https://cdn/x.js")] },
   { attributes := [("src", "b.js")] }]

/-- One script element whose `src` is a CDN address and whose `data-src` is a local path. -/
def tagsCdnWithLocalDataSrc : List ScriptTag :=
  [{ attributes := [("src", "https://cdn/x.js"), ("data-src", "local.js")] }]

/-- Two script elements: the `src` of the first is a relative path into the excluded module,
the second has the local `src` `scripts/map.js`. -/
def tagsModuleThenLocal : List ScriptTag :=
  [{ attributes := [("src", "node_modules/mapbox-gl/dist/mapbox-gl.js")] },
   { attributes := [("src", "scripts/map.js")] }]

/-! ## Theorems: `decompressFeatures` -/

/-- The `properties` object built by the arrow function of `decompressFeatures`, in closed
form: the title, then each optional property that passes its test, in the order of the code. -/
theorem decompressFeature_properties {N : Type} (c : CompactFeature N) :
    (decompressFeature c).properties =
      [("title", c.title)] ++
      (c.description.map (fun d => ("description", d))).toList ++
      ((c.websiteURL.filter (fun u => u ≠ "")).map (fun u => ("websiteURL", u))).toList ++
      (c.focusArea.map (fun a => ("focusArea", a.value))).toList ++
      (c.fundedStatus.map (fun s => ("fundedStatus", s.value))).toList := by
  obtain ⟨title, coordinates, description, websiteURL, focusArea, fundedStatus⟩ := c
  rcases websiteURL with _ | u
  · cases description <;> cases focusArea <;> cases fundedStatus <;> rfl
  · by_cases hu : u = ""
    · subst hu
      cases description <;> cases focusArea <;> cases fundedStatus <;> rfl
    · cases description <;> cases focusArea <;> cases fundedStatus <;>
        simp only [decompressFeature, Option.filter, hu, ne_eq, not_false_eq_true, decide_True,
          if_true, ite_true] <;> rfl

/-- Reading each of the five keys off the closed form. -/
theorem decompressFeature_get {N : Type} (c : CompactFeature N) :
    (decompressFeature c).properties.get "title" = some c.title ∧
    (decompressFeature c).properties.get "description" = c.description ∧
    (decompressFeature c).properties.get "websiteURL" =
      (if c.websiteURL = some "" then none else c.websiteURL) ∧
    (decompressFeature c).properties.get "focusArea" = c.focusArea.map FOCUS_AREAS.value ∧
    (decompressFeature c).properties.get "fundedStatus" =
      c.fundedStatus.map FUNDED_STATUS.value := by
  rw [decompressFeature_properties]
  obtain ⟨title, coordinates, description, websiteURL, focusArea, fundedStatus⟩ := c
  rcases websiteURL with _ | u
  · cases description <;> cases focusArea <;> cases fundedStatus <;>
      exact ⟨rfl, rfl, rfl, rfl, rfl⟩
  · by_cases hu : u = ""
    · subst hu
      cases description <;> cases focusArea <;> cases fundedStatus <;>
        exact ⟨rfl, rfl, rfl, rfl, rfl⟩
    · have hne : ¬ (some u = some "") := by simpa using hu
      cases description <;> cases focusArea <;> cases fundedStatus <;>
        simp only [Option.filter, hu, hne, ne_eq, not_false_eq_true, decide_True,
          if_true, ite_true, if_false, ite_false] <;> exact ⟨rfl, rfl, rfl, rfl, rfl⟩

/-- The own keys of the built `properties` object are `title` and optional keys, each once. -/
theorem decompressFeature_keys {N : Type} (c : CompactFeature N) :
    (∀ key ∈ (decompressFeature c).properties.keys, key = "title" ∨ key ∈ optionalKeys) ∧
    (decompressFeature c).properties.keys.Nodup := by
  rw [decompressFeature_properties]
  obtain ⟨title, coordinates, description, websiteURL, focusArea, fundedStatus⟩ := c
  rcases websiteURL with _ | u
  · cases description <;> cases focusArea <;> cases fundedStatus <;>
      simp [Properties.keys, optionalKeys]
  · by_cases hu : u = ""
    · subst hu
      cases description <;> cases focusArea <;> cases fundedStatus <;>
        simp [Properties.keys, optionalKeys, Option.filter]
    · cases description <;> cases focusArea <;> cases fundedStatus <;>
        simp [Properties.keys, optionalKeys, Option.filter, hu]

/-- The type and geometry members are the constant `Feature`, and a `Point` with the source
coordinates. -/
theorem decompressFeature_shape {N : Type} (c : CompactFeature N) :
    (decompressFeature c).type = "Feature" ∧
    (decompressFeature c).geometry = { type := "Point", coordinates := c.coordinates } := by
  obtain ⟨title, coordinates, description, websiteURL, focusArea, fundedStatus⟩ := c
  rcases websiteURL with _ | u
  · cases description <;> cases focusArea <;> cases fundedStatus <;> exact ⟨rfl, rfl⟩
  · by_cases hu : u = ""
    · subst hu
      cases description <;> cases focusArea <;> cases fundedStatus <;> exact ⟨rfl, rfl⟩
    · cases description <;> cases focusArea <;> cases fundedStatus <;>
        simp [decompressFeature, hu]

/-- Every own key of a `properties` object reads back a defined value. -/
theorem properties_get_of_mem_keys (p : Properties) (key : String) (h : key ∈ p.keys) :
    ∃ v, p.get key = some v := by
  induction p with
  | nil => simp [Properties.keys] at h
  | cons kv rest ih =>
    obtain ⟨k, v⟩ := kv
    by_cases hk : key = k
    · subst hk
      exact ⟨v, by simp [Properties.get, List.lookup]⟩
    · have hmem : key ∈ Properties.keys rest := by
        simpa [Properties.keys, hk] using h
      obtain ⟨w, hw⟩ := ih hmem
      refine ⟨w, ?_⟩
      have hne : (key == k) = false := by simpa using hk
      simpa [Properties.get, List.lookup, hne] using hw

/-- C1: for every list of compact features and every feature `c` at an index `i` of it, the
feature at index `i` of `decompressFeatures` has type `Feature`, a `Point` geometry with the
source coordinates, and a properties object that holds `title`, holds `description`,
`focusArea`, `fundedStatus` exactly when the source field is defined (with the source value),
holds `websiteURL` exactly when the source field is defined and not the empty string, holds no
other key, and holds a defined value under each of its keys. -/
theorem decompressFeatures_feature {N : Type} (cs : List (CompactFeature N)) (i : Nat)
    (c : CompactFeature N) (h : cs[i]? = some c) :
    ∃ d, (decompressFeatures cs)[i]? = some d ∧
      d.type = "Feature" ∧
      d.geometry = { type := "Point", coordinates := c.coordinates } ∧
      d.properties.get "title" = some c.title ∧
      d.properties.get "description" = c.description ∧
      d.properties.get "websiteURL" = (if c.websiteURL = some "" then none else c.websiteURL) ∧
      d.properties.get "focusArea" = c.focusArea.map FOCUS_AREAS.value ∧
      d.properties.get "fundedStatus" = c.fundedStatus.map FUNDED_STATUS.value ∧
      (∀ key ∈ d.properties.keys, key = "title" ∨ key ∈ optionalKeys) ∧
      d.properties.keys.Nodup ∧
      (∀ key ∈ d.properties.keys, ∃ v, d.properties.get key = some v) := by
  refine ⟨decompressFeature c, by simp [decompressFeatures, h], ?_⟩
  obtain ⟨h1, h2, h3, h4, h5⟩ := decompressFeature_get c
  obtain ⟨k1, k2⟩ := decompressFeature_keys c
  obtain ⟨s1, s2⟩ := decompressFeature_shape c
  exact ⟨s1, s2, h1, h2, h3, h4, h5, k1, k2,
    fun key hkey => properties_get_of_mem_keys _ key hkey⟩

/-- Witness of C1 on the scenario of the specification: the table with the single compact
feature titled `A` at `[1, 2]` with focus area `HEALTH`. -/
theorem decompressFeatures_feature_witness :
    decompressFeatures [compactA] =
      [{ type := "Feature", properties := [("title", "A"), ("focusArea", "HEALTH")],
         geometry := { type := "Point", coordinates := [1, 2] } }] ∧
    [compactA][0]? = some compactA ∧
    ∃ d, (decompressFeatures [compactA])[0]? = some d ∧
      d.type = "Feature" ∧
      d.geometry = { type := "Point", coordinates := compactA.coordinates } ∧
      d.properties.get "title" = some compactA.title ∧
      d.properties.get "description" = compactA.description ∧
      d.properties.get "websiteURL" =
        (if compactA.websiteURL = some "" then none else compactA.websiteURL) ∧
      d.properties.get "focusArea" = compactA.focusArea.map FOCUS_AREAS.value ∧
      d.properties.get "fundedStatus" = compactA.fundedStatus.map FUNDED_STATUS.value ∧
      (∀ key ∈ d.properties.keys, key = "title" ∨ key ∈ optionalKeys) ∧
      d.properties.keys.Nodup ∧
      (∀ key ∈ d.properties.keys, ∃ v, d.properties.get key = some v) :=
  ⟨by decide, rfl, decompressFeatures_feature [compactA] 0 compactA rfl⟩

/-- Counterexample to C2 as stated: a compact feature whose `description` is the empty string
is decompressed into a feature whose properties hold `description`, with the empty string. -/
theorem decompressFeatures_empty_description_kept :
    compactEmptyStrings.description = some "" ∧
    decompressFeatures [compactEmptyStrings] =
      [{ type := "Feature", properties := [("title", "A"), ("description", "")],
         geometry := { type := "Point", coordinates := [1, 2] } }] ∧
    "description" ∈ (decompressFeature compactEmptyStrings).properties.keys ∧
    (decompressFeature compactEmptyStrings).properties.get "description" = some "" := by
  decide

/-- C2, amended: for every compact feature, an optional field (`description`, `websiteURL`,
`focusArea`, `fundedStatus`) that is absent on the source, and a `websiteURL` that is the empty
string, does not appear in the properties of the decompressed feature. -/
theorem decompressFeatures_absent_not_copied {N : Type} (cs : List (CompactFeature N))
    (c : CompactFeature N) (key : String) (hc : c ∈ cs) (hkey : key ∈ optionalKeys)
    (habsent : c.field key = none ∨ (key = "websiteURL" ∧ c.field key = some "")) :
    decompressFeature c ∈ decompressFeatures cs ∧
    key ∉ (decompressFeature c).properties.keys ∧
    (decompressFeature c).properties.get key = none := by
  have hget : (decompressFeature c).properties.get key = none := by
    obtain ⟨-, h2, h3, h4, h5⟩ := decompressFeature_get c
    simp only [optionalKeys, List.mem_cons, List.mem_singleton, List.not_mem_nil, or_false]
      at hkey
    rcases hkey with rfl | rfl | rfl | rfl
    · rcases habsent with h | ⟨h, -⟩
      · rw [h2]; simpa [CompactFeature.field] using h
      · simp at h
    · rcases habsent with h | ⟨-, h⟩
      · rw [h3]; simp [CompactFeature.field] at h; simp [h]
      · rw [h3]; simp [CompactFeature.field] at h; simp [h]
    · rcases habsent with h | ⟨h, -⟩
      · rw [h4]; simpa [CompactFeature.field] using h
      · simp at h
    · rcases habsent with h | ⟨h, -⟩
      · rw [h5]; simpa [CompactFeature.field] using h
      · simp at h
  refine ⟨List.mem_map_of_mem _ hc, ?_, hget⟩
  intro hmem
  obtain ⟨v, hv⟩ := properties_get_of_mem_keys _ key hmem
  rw [hget] at hv
  exact Option.noConfusion hv

/-- Witness of the amended C2: an empty `websiteURL` is not copied. -/
theorem decompressFeatures_absent_not_copied_witness :
    decompressFeature compactEmptyStrings ∈ decompressFeatures [compactEmptyStrings] ∧
    "websiteURL" ∉ (decompressFeature compactEmptyStrings).properties.keys ∧
    (decompressFeature compactEmptyStrings).properties.get "websiteURL" = none :=
  decompressFeatures_absent_not_copied [compactEmptyStrings] compactEmptyStrings "websiteURL"
    (by decide) (by decide) (Or.inr ⟨rfl, by decide⟩)

/-- C8: `decompressFeatures` preserves length and order: the output has the length of the
input, its element at every index is the decompression of the input element at that index, and
that element is what `decompressFeatures` gives on the input element alone. -/
theorem decompressFeatures_length_order {N : Type} (cs : List (CompactFeature N)) :
    (decompressFeatures cs).length = cs.length ∧
    (∀ i : Nat, (decompressFeatures cs)[i]? = (cs[i]?).map decompressFeature) ∧
    (∀ c : CompactFeature N, decompressFeatures [c] = [decompressFeature c]) ∧
    (∀ i : Nat, ((decompressFeatures cs)[i]?).toList =
      decompressFeatures (cs[i]?).toList) := by
  refine ⟨by simp [decompressFeatures], fun i => by simp [decompressFeatures],
    fun c => rfl, fun i => ?_⟩
  cases h : cs[i]? <;> simp [decompressFeatures, h]

/-! ## Theorems: `updateLayerFilter` -/

/-- Every value of `FOCUS_AREAS` is among `Object.values(FOCUS_AREAS)`. -/
theorem focusAreas_value_mem_values (a : FOCUS_AREAS) : a.value ∈ FOCUS_AREAS.values := by
  cases a <;> decide

/-- Every value of `FUNDED_STATUS` is among `Object.values(FUNDED_STATUS)`. -/
theorem fundedStatus_value_mem_values (s : FUNDED_STATUS) :
    s.value ∈ FUNDED_STATUS.values := by
  cases s <;> decide

/-- Decompressed features are well typed. -/
theorem decompressFeature_wellTyped {N : Type} (c : CompactFeature N) :
    WellTyped (decompressFeature c) := by
  obtain ⟨-, -, -, h4, h5⟩ := decompressFeature_get c
  intro cat value hv
  cases cat
  · rw [Category.property, h4] at hv
    cases hfa : c.focusArea with
    | none => simp [hfa] at hv
    | some a =>
      simp only [hfa, Option.map, Option.some.injEq] at hv
      subst hv
      exact focusAreas_value_mem_values a
  · rw [Category.property, h5] at hv
    cases hfs : c.fundedStatus with
    | none => simp [hfs] at hv
    | some a =>
      simp only [hfs, Option.map, Option.some.injEq] at hv
      subst hv
      exact fundedStatus_value_mem_values a

/-- Membership in the enabled set of a category. -/
theorem mem_enabledSet (c : Category) (inputs : List Input) (value : String) :
    value ∈ enabledSet c inputs ↔ value ∈ c.knownValues ∧ value ∈ checkedSymbols inputs := by
  simp [enabledSet, List.mem_filter]

/-- On a well-typed feature the test of one property in `updateLayerFilter`, which looks the
value up among all checked ids, is the per-category test of the specification. -/
theorem propertyTest_iff {N : Type} (inputs : List Input) (feature : Feature N)
    (hf : WellTyped feature) (c : Category) :
    (match feature.properties.get c.property with
      | none => true
      | some value => (checkedSymbols inputs).contains value) = true ↔
    passesCategory inputs feature c := by
  unfold passesCategory
  cases h : feature.properties.get c.property with
  | none => simp
  | some value =>
    have hk := hf c value h
    simp [mem_enabledSet, hk]

/-- The callback of the `filter` in `updateLayerFilter` on a well-typed feature. -/
theorem filterTest_iff {N : Type} (inputs : List Input) (feature : Feature N)
    (hf : WellTyped feature) :
    (propertiesToFilter.all (fun property =>
      match feature.properties.get property with
      | none => true
      | some value => (checkedSymbols inputs).contains value)) = true ↔
    passesCategory inputs feature Category.focusArea ∧
      passesCategory inputs feature Category.fundedStatus := by
  have h1 := propertyTest_iff inputs feature hf Category.focusArea
  have h2 := propertyTest_iff inputs feature hf Category.fundedStatus
  simp only [Category.property] at h1 h2
  simp only [propertiesToFilter, List.all_cons, List.all_nil, Bool.and_true, Bool.and_eq_true]
  rw [h1, h2]
  exact And.comm

/-- Every element of a decompressed list is well typed. -/
theorem wellTyped_of_mem_decompressFeatures {N : Type} (cs : List (CompactFeature N))
    (feature : Feature N) (h : feature ∈ decompressFeatures cs) : WellTyped feature := by
  obtain ⟨c, -, rfl⟩ := List.mem_map.1 h
  exact decompressFeature_wellTyped c

/-- Membership in the list computed by `updateLayerFilter` from a decompressed table. -/
theorem mem_updateLayerFilter {N : Type} (cs : List (CompactFeature N))
    (inputs : List Input) (feature : Feature N) :
    feature ∈ updateLayerFilter inputs (decompressFeatures cs) ↔
      feature ∈ decompressFeatures cs ∧
        passesCategory inputs feature Category.focusArea ∧
        passesCategory inputs feature Category.fundedStatus := by
  unfold updateLayerFilter
  rw [List.mem_filter]
  constructor
  · rintro ⟨hmem, htest⟩
    exact ⟨hmem, (filterTest_iff inputs feature
      (wellTyped_of_mem_decompressFeatures cs feature hmem)).1 htest⟩
  · rintro ⟨hmem, hpass⟩
    exact ⟨hmem, (filterTest_iff inputs feature
      (wellTyped_of_mem_decompressFeatures cs feature hmem)).2 hpass⟩

/-- C3: for every feature table and every state of the filter checkboxes, the list that
`updateLayerFilter` computes from the decompressed table contains a feature if and only if the
feature is in the decompressed table and, for each of `focusArea` and `fundedStatus`, it lacks
the property or its value is in the enabled set of that category; the list keeps the order of
the table; on the scenario (feature `A` with focus area `HEALTH`, only `EDUCATION` enabled)
the list is empty. -/
theorem updateLayerFilter_mem_iff {N : Type} (cs : List (CompactFeature N))
    (inputs : List Input) (feature : Feature N) :
    (feature ∈ updateLayerFilter inputs (decompressFeatures cs) ↔
      feature ∈ decompressFeatures cs ∧
        passesCategory inputs feature Category.focusArea ∧
        passesCategory inputs feature Category.fundedStatus) ∧
    List.Sublist (updateLayerFilter inputs (decompressFeatures cs)) (decompressFeatures cs) ∧
    updateLayerFilter onlyEducation (decompressFeatures [compactA]) = [] :=
  ⟨mem_updateLayerFilter cs inputs feature, List.filter_sublist _, by decide⟩

/-- The checked ids after `createFilterNavbar` contain every value of both enums. -/
theorem enabledSet_createFilterNavbar (filterGroup : List Input) (c : Category) :
    enabledSet c (createFilterNavbar filterGroup) = c.knownValues := by
  have e1 : FOCUS_AREAS.values.eraseDups = FOCUS_AREAS.values := by decide
  have e2 : FUNDED_STATUS.values.eraseDups = FUNDED_STATUS.values := by decide
  unfold enabledSet
  rw [List.filter_eq_self]
  intro v hv
  simp only [createFilterNavbar, addOptionsToNavbar, e1, e2, checkedSymbols, List.filter_append,
    List.map_append, List.contains_eq_any_beq, List.any_append, List.filter_map, List.map_map,
    Bool.or_eq_true]
  cases c
  · left; right
    simp only [Category.knownValues, FOCUS_AREAS.values, List.mem_cons, List.mem_singleton,
      List.not_mem_nil, or_false] at hv
    rcases hv with rfl | rfl | rfl | rfl <;> decide
  · right
    simp only [Category.knownValues, FUNDED_STATUS.values, List.mem_cons, List.mem_singleton,
      List.not_mem_nil, or_false] at hv
    rcases hv with rfl | rfl | rfl <;> decide

/-- C5: for every feature table, when the enabled set of every category is its full known
value set, the list computed by `updateLayerFilter` is the whole decompressed table, in the
same order. -/
theorem updateLayerFilter_all_enabled {N : Type} (cs : List (CompactFeature N))
    (inputs : List Input)
    (h : ∀ c : Category, ∀ value, value ∈ enabledSet c inputs ↔ value ∈ c.knownValues) :
    updateLayerFilter inputs (decompressFeatures cs) = decompressFeatures cs := by
  unfold updateLayerFilter
  rw [List.filter_eq_self]
  intro feature hmem
  have hf := wellTyped_of_mem_decompressFeatures cs feature hmem
  rw [filterTest_iff inputs feature hf]
  have hpass : ∀ c : Category, passesCategory inputs feature c := by
    intro c
    unfold passesCategory
    cases hv : feature.properties.get c.property with
    | none => exact Or.inl rfl
    | some value => exact Or.inr ⟨value, rfl, (h c value).2 (hf c value hv)⟩
  exact ⟨hpass _, hpass _⟩

/-- Witness of C5: the filter group that `createFilterNavbar` builds has every value of both
categories enabled, and the filter then returns the decompressed table unchanged. -/
theorem updateLayerFilter_all_enabled_witness :
    (∀ c : Category, ∀ value,
      value ∈ enabledSet c (createFilterNavbar []) ↔ value ∈ c.knownValues) ∧
    updateLayerFilter (createFilterNavbar []) (decompressFeatures [compactA, compactFunded]) =
      decompressFeatures [compactA, compactFunded] :=
  ⟨fun c value => by rw [enabledSet_createFilterNavbar],
   updateLayerFilter_all_enabled [compactA, compactFunded] (createFilterNavbar [])
     (fun c value => by rw [enabledSet_createFilterNavbar])⟩

/-- Counterexample to C6 as stated: with every focus area disabled, a feature that lacks
`focusArea` does not remain when its funded status is disabled as well. -/
theorem updateLayerFilter_lacking_feature_removed :
    (∀ value ∈ Category.focusArea.knownValues,
      value ∉ checkedSymbols focusAreasOffFundedOff) ∧
    decompressFeature compactFunded ∈ decompressFeatures [compactFunded] ∧
    (decompressFeature compactFunded).properties.get Category.focusArea.property = none ∧
    decompressFeature compactFunded ∉
      updateLayerFilter focusAreasOffFundedOff (decompressFeatures [compactFunded]) := by
  decide

/-- C6, amended: for every feature table and each tracked category `c`, when every value of
`c` is disabled, the list computed by `updateLayerFilter` contains no feature that declares a
value (so no non-empty value) for `c`, and a feature of the table that lacks property `c`
remains in it exactly when it passes the test of the other category. -/
theorem updateLayerFilter_category_disabled {N : Type} (cs : List (CompactFeature N))
    (inputs : List Input) (c : Category)
    (h : ∀ value ∈ c.knownValues, value ∉ checkedSymbols inputs) :
    (∀ feature ∈ updateLayerFilter inputs (decompressFeatures cs),
      feature.properties.get c.property = none) ∧
    (∀ feature ∈ decompressFeatures cs, feature.properties.get c.property = none →
      (feature ∈ updateLayerFilter inputs (decompressFeatures cs) ↔
        passesCategory inputs feature c.other)) := by
  have hiff := fun feature => mem_updateLayerFilter cs inputs feature
  have hnone : ∀ feature : Feature N, passesCategory inputs feature c →
      feature.properties.get c.property = none := by
    intro feature hp
    rcases hp with hp | ⟨value, -, hen⟩
    · exact hp
    · rw [mem_enabledSet] at hen
      exact absurd hen.2 (h value hen.1)
  constructor
  · intro feature hmem
    obtain ⟨-, p1, p2⟩ := (hiff feature).1 hmem
    cases c
    · exact hnone feature p1
    · exact hnone feature p2
  · intro feature hmem hlack
    rw [hiff feature]
    cases c
    · exact ⟨fun hp => hp.2.2, fun hp => ⟨hmem, Or.inl hlack, hp⟩⟩
    · exact ⟨fun hp => hp.2.1, fun hp => ⟨hmem, hp, Or.inl hlack⟩⟩

/-- Witness of the amended C6: no focus area checked, every funded status checked. -/
theorem updateLayerFilter_category_disabled_witness :
    (∀ value ∈ Category.focusArea.knownValues,
      value ∉ checkedSymbols (addOptionsToNavbar FUNDED_STATUS.values [])) ∧
    (∀ feature ∈ updateLayerFilter (addOptionsToNavbar FUNDED_STATUS.values [])
        (decompressFeatures [compactA, compactFunded]),
      feature.properties.get Category.focusArea.property = none) ∧
    (∀ feature ∈ decompressFeatures [compactA, compactFunded],
      feature.properties.get Category.focusArea.property = none →
      (feature ∈ updateLayerFilter (addOptionsToNavbar FUNDED_STATUS.values [])
          (decompressFeatures [compactA, compactFunded]) ↔
        passesCategory (addOptionsToNavbar FUNDED_STATUS.values []) feature
          Category.focusArea.other)) :=
  ⟨by decide,
   updateLayerFilter_category_disabled [compactA, compactFunded]
     (addOptionsToNavbar FUNDED_STATUS.values []) Category.focusArea (by decide)⟩

/-! ## Theorems: `updateVisibleFeatures` -/

/-- Membership test on the set of keys after one insertion. -/
theorem contains_append_singleton (seen : List String) (k x : String) :
    (seen ++ [k]).contains x = true ↔ seen.contains x = true ∨ x = k := by
  simp

/-- The dedup filter keeps a sublist of its input. -/
theorem uniqueFilter_sublist {N : Type} (numToString : N → String) (seen : List String)
    (fs : List (Feature N)) : List.Sublist (uniqueFilter numToString seen fs) fs := by
  induction fs generalizing seen with
  | nil => exact List.Sublist.slnil
  | cons f rest ih =>
    unfold uniqueFilter
    split
    · exact List.Sublist.cons _ (ih seen)
    · exact List.Sublist.cons₂ _ (ih _)

/-- A feature kept by the dedup filter has a key that was not in the set at the start. -/
theorem uniqueFilter_key_not_seen {N : Type} (numToString : N → String) (seen : List String)
    (fs : List (Feature N)) (g : Feature N) (hg : g ∈ uniqueFilter numToString seen fs) :
    seen.contains (featureKey numToString g) = false := by
  induction fs generalizing seen with
  | nil => simp [uniqueFilter] at hg
  | cons f rest ih =>
    unfold uniqueFilter at hg
    split at hg
    · exact ih seen hg
    · rename_i hf
      rcases List.mem_cons.1 hg with rfl | hmem
      · simpa using hf
      · have h := ih _ hmem
        cases hc : seen.contains (featureKey numToString g) with
        | false => rfl
        | true =>
          have : (seen ++ [featureKey numToString f]).contains (featureKey numToString g) = true :=
            (contains_append_singleton _ _ _).2 (Or.inl hc)
          rw [this] at h
          exact Bool.noConfusion h

/-- A feature kept after an insertion has a key different from the inserted one. -/
theorem uniqueFilter_key_ne {N : Type} (numToString : N → String) (seen : List String)
    (k : String) (fs : List (Feature N)) (g : Feature N)
    (hg : g ∈ uniqueFilter numToString (seen ++ [k]) fs) :
    featureKey numToString g ≠ k := by
  intro heq
  have h := uniqueFilter_key_not_seen numToString _ fs g hg
  have : (seen ++ [k]).contains (featureKey numToString g) = true :=
    (contains_append_singleton _ _ _).2 (Or.inr heq)
  rw [this] at h
  exact Bool.noConfusion h

/-- Every key of the input that is not in the set at the start is the key of a kept feature. -/
theorem uniqueFilter_covers {N : Type} (numToString : N → String) (seen : List String)
    (fs : List (Feature N)) (f : Feature N) (hf : f ∈ fs)
    (hk : seen.contains (featureKey numToString f) = false) :
    ∃ g ∈ uniqueFilter numToString seen fs,
      featureKey numToString g = featureKey numToString f := by
  induction fs generalizing seen with
  | nil => simp at hf
  | cons a rest ih =>
    unfold uniqueFilter
    rcases List.mem_cons.1 hf with rfl | hmem
    · rw [if_neg (by rw [hk]; decide)]
      exact ⟨f, List.mem_cons_self _ _, rfl⟩
    · split
      · exact ih seen hmem hk
      · by_cases hsame : featureKey numToString f = featureKey numToString a
        · exact ⟨a, List.mem_cons_self _ _, hsame.symm⟩
        · have hk2 : (seen ++ [featureKey numToString a]).contains
              (featureKey numToString f) = false := by
            cases hc : (seen ++ [featureKey numToString a]).contains (featureKey numToString f)
              with
            | false => rfl
            | true =>
              rcases (contains_append_singleton _ _ _).1 hc with h | h
              · rw [h] at hk; exact Bool.noConfusion hk
              · exact absurd h hsame
          obtain ⟨g, hg, hgk⟩ := ih _ hmem hk2
          exact ⟨g, List.mem_cons_of_mem _ hg, hgk⟩

/-- The keys of the kept features are pairwise different. -/
theorem uniqueFilter_keys_nodup {N : Type} (numToString : N → String) (seen : List String)
    (fs : List (Feature N)) :
    ((uniqueFilter numToString seen fs).map (featureKey numToString)).Nodup := by
  induction fs generalizing seen with
  | nil => simp [uniqueFilter]
  | cons f rest ih =>
    unfold uniqueFilter
    split
    · exact ih seen
    · rw [List.map_cons, List.nodup_cons]
      refine ⟨?_, ih _⟩
      intro hmem
      obtain ⟨g, hg, hgk⟩ := List.mem_map.1 hmem
      exact uniqueFilter_key_ne numToString seen _ rest g hg hgk

/-- A kept feature is the first feature of the input that has its key. -/
theorem uniqueFilter_first {N : Type} (numToString : N → String) (seen : List String)
    (fs : List (Feature N)) (g : Feature N) (hg : g ∈ uniqueFilter numToString seen fs) :
    fs.find? (fun f => featureKey numToString f == featureKey numToString g) = some g := by
  induction fs generalizing seen with
  | nil => simp [uniqueFilter] at hg
  | cons f rest ih =>
    unfold uniqueFilter at hg
    split at hg
    · rename_i hf
      have hne : featureKey numToString f ≠ featureKey numToString g := by
        intro heq
        have h := uniqueFilter_key_not_seen numToString seen rest g hg
        rw [← heq, hf] at h
        exact Bool.noConfusion h
      rw [List.find?_cons_of_neg _ (by simpa using hne)]
      exact ih seen hg
    · rcases List.mem_cons.1 hg with rfl | hmem
      · simp
      · have hne : featureKey numToString f ≠ featureKey numToString g :=
          fun heq => uniqueFilter_key_ne numToString seen _ rest g hmem heq.symm
        rw [List.find?_cons_of_neg _ (by simpa using hne)]
        exact ih _ hmem

/-- The kept features are in the order in which their keys first occur in the input. -/
theorem uniqueFilter_order {N : Type} (numToString : N → String) (seen : List String)
    (fs : List (Feature N)) :
    List.Pairwise (fun g h =>
      fs.findIdx (fun f => featureKey numToString f == featureKey numToString g) <
      fs.findIdx (fun f => featureKey numToString f == featureKey numToString h))
      (uniqueFilter numToString seen fs) := by
  induction fs generalizing seen with
  | nil => simp [uniqueFilter]
  | cons f rest ih =>
    have shift : ∀ g : Feature N, featureKey numToString f ≠ featureKey numToString g →
        (f :: rest).findIdx (fun a => featureKey numToString a == featureKey numToString g) =
        rest.findIdx (fun a => featureKey numToString a == featureKey numToString g) + 1 := by
      intro g hne
      rw [List.findIdx_cons]
      have : (featureKey numToString f == featureKey numToString g) = false := by
        simpa using hne
      simp [this]
    unfold uniqueFilter
    split
    · rename_i hf
      refine (ih seen).imp_of_mem ?_
      intro g h hg hh hlt
      have hneg : featureKey numToString f ≠ featureKey numToString g := by
        intro heq
        have h1 := uniqueFilter_key_not_seen numToString seen rest g hg
        rw [← heq, hf] at h1
        exact Bool.noConfusion h1
      have hneh : featureKey numToString f ≠ featureKey numToString h := by
        intro heq
        have h1 := uniqueFilter_key_not_seen numToString seen rest h hh
        rw [← heq, hf] at h1
        exact Bool.noConfusion h1
      rw [shift g hneg, shift h hneh]
      exact Nat.succ_lt_succ hlt
    · rw [List.pairwise_cons]
      constructor
      · intro h hh
        have hneh : featureKey numToString f ≠ featureKey numToString h :=
          fun heq => uniqueFilter_key_ne numToString seen _ rest h hh heq.symm
        rw [shift h hneh, List.findIdx_cons]
        simp
      · refine (ih _).imp_of_mem ?_
        intro g h hg hh hlt
        have hneg : featureKey numToString f ≠ featureKey numToString g :=
          fun heq => uniqueFilter_key_ne numToString seen _ rest g hg heq.symm
        have hneh : featureKey numToString f ≠ featureKey numToString h :=
          fun heq => uniqueFilter_key_ne numToString seen _ rest h hh heq.symm
        rw [shift g hneg, shift h hneh]
        exact Nat.succ_lt_succ hlt

/-- C4: for every sequence of rendered features, the dedup step of `updateVisibleFeatures`
keeps a subsequence of the input (input order), every key of the input is the key of exactly
one kept feature, each kept feature is the first feature of the input with its key, the kept
features are ordered by the first occurrence of their keys, and on the scenario
`[A at [1,2], A at [1,2], B at [3,4]]` exactly `A` then `B` are kept. -/
theorem uniqueFeatures_dedup {N : Type} (numToString : N → String)
    (visibleFeatures : List (Feature N)) :
    List.Sublist (uniqueFeatures numToString visibleFeatures) visibleFeatures ∧
    (∀ f ∈ visibleFeatures,
      ((uniqueFeatures numToString visibleFeatures).map (featureKey numToString)).count
        (featureKey numToString f) = 1) ∧
    (∀ g ∈ uniqueFeatures numToString visibleFeatures,
      visibleFeatures.find?
        (fun f => featureKey numToString f == featureKey numToString g) = some g) ∧
    List.Pairwise (fun g h =>
      visibleFeatures.findIdx
        (fun f => featureKey numToString f == featureKey numToString g) <
      visibleFeatures.findIdx
        (fun f => featureKey numToString f == featureKey numToString h))
      (uniqueFeatures numToString visibleFeatures) ∧
    uniqueFeatures intToString [renderedA, renderedA, renderedB] = [renderedA, renderedB] := by
  refine ⟨uniqueFilter_sublist numToString [] visibleFeatures, ?_,
    fun g hg => uniqueFilter_first numToString [] visibleFeatures g hg,
    uniqueFilter_order numToString [] visibleFeatures, by decide⟩
  intro f hf
  obtain ⟨g, hg, hgk⟩ := uniqueFilter_covers numToString [] visibleFeatures f hf rfl
  refine List.count_eq_one_of_mem (uniqueFilter_keys_nodup numToString [] visibleFeatures) ?_
  rw [← hgk]
  exact List.mem_map_of_mem _ hg

/-- Every item of the listing was built from a kept feature whose title is defined and is the
text of the item. -/
theorem mem_updateVisibleFeatures {N : Type} (numToString : N → String)
    (visibleFeatures : List (Feature N)) (item : ListingItem N) :
    item ∈ updateVisibleFeatures numToString visibleFeatures ↔
      item.feature ∈ uniqueFeatures numToString visibleFeatures ∧
      item.feature.properties.get "title" = some item.textContent ∧ item.href = "#" := by
  unfold updateVisibleFeatures
  rw [List.mem_filterMap]
  constructor
  · rintro ⟨f, hf, hitem⟩
    cases ht : f.properties.get "title" with
    | none => simp [ht] at hitem
    | some title =>
      simp only [ht, Option.some.injEq] at hitem
      subst hitem
      exact ⟨hf, ht, rfl⟩
  · rintro ⟨hf, ht, hh⟩
    refine ⟨item.feature, hf, ?_⟩
    obtain ⟨href, textContent, feature⟩ := item
    simp only at ht hh
    simp [ht, hh]

/-- C7: for every sequence of rendered features, every entry of the listing built by
`updateVisibleFeatures` comes from a rendered feature whose title is defined (and is the text of
the entry), so a feature whose properties have no title is the feature of no entry; on the
sequence `[untitled at [1,2], B at [3,4]]` the listing is the single entry `B`. -/
theorem updateVisibleFeatures_titled {N : Type} (numToString : N → String)
    (visibleFeatures : List (Feature N)) :
    (∀ item ∈ updateVisibleFeatures numToString visibleFeatures,
      item.feature ∈ visibleFeatures ∧
      item.feature.properties.get "title" = some item.textContent) ∧
    (∀ feature : Feature N, feature.properties.get "title" = none →
      ∀ item ∈ updateVisibleFeatures numToString visibleFeatures, item.feature ≠ feature) ∧
    updateVisibleFeatures intToString [renderedUntitled, renderedB] =
      [{ href := "#", textContent := "B", feature := renderedB }] := by
  refine ⟨?_, ?_, by decide⟩
  · intro item hitem
    obtain ⟨hf, ht, -⟩ := (mem_updateVisibleFeatures numToString visibleFeatures item).1 hitem
    exact ⟨(uniqueFilter_sublist numToString [] visibleFeatures).subset hf, ht⟩
  · intro feature hnone item hitem heq
    obtain ⟨-, ht, -⟩ := (mem_updateVisibleFeatures numToString visibleFeatures item).1 hitem
    rw [heq, hnone] at ht
    exact Option.noConfusion ht

/-! ## Theorems: popups -/

/-- After `clearAllPopups` no popup of the array is displayed. -/
theorem displayed_clearAllPopups {N : Type} (popups : List (Popup N)) :
    displayed (clearAllPopups popups) = [] := by
  simp [displayed, clearAllPopups, List.filter_eq_nil_iff]

/-- C9: for every state of the popup array, after the click listener of a listing entry the
popups that were in the array are all closed (each kept in place with its anchor and content),
one popup has been appended, open and anchored at the coordinates of the entry's feature, and
the displayed popups are exactly that one. -/
theorem listingItemClick_one_popup {N : Type} (popups : List (Popup N))
    (feature : Feature N) :
    (listingItemClick popups feature).2 =
      clearAllPopups popups ++ [(createPopupForFeature (clearAllPopups popups) feature).1] ∧
    (clearAllPopups popups).length = popups.length ∧
    (∀ popup ∈ clearAllPopups popups, popup.onMap = false) ∧
    (clearAllPopups popups).map (fun popup => (popup.lngLat, popup.html)) =
      popups.map (fun popup => (popup.lngLat, popup.html)) ∧
    (createPopupForFeature (clearAllPopups popups) feature).1.onMap = true ∧
    (createPopupForFeature (clearAllPopups popups) feature).1.lngLat =
      feature.geometry.coordinates ∧
    displayed (listingItemClick popups feature).2 =
      [(createPopupForFeature (clearAllPopups popups) feature).1] ∧
    (displayed (listingItemClick popups feature).2).length = 1 ∧
    (listingItemClick popups feature).1 =
      { center := feature.geometry.coordinates, duration := 1000 } := by
  have hshape : (listingItemClick popups feature).2 =
      clearAllPopups popups ++ [(createPopupForFeature (clearAllPopups popups) feature).1] := rfl
  have hopen : (createPopupForFeature (clearAllPopups popups) feature).1.onMap = true := rfl
  have hdisp : displayed (listingItemClick popups feature).2 =
      [(createPopupForFeature (clearAllPopups popups) feature).1] := by
    rw [hshape]
    unfold displayed
    rw [List.filter_append]
    have h0 := displayed_clearAllPopups popups
    unfold displayed at h0
    rw [h0]
    simp [hopen]
  refine ⟨hshape, by simp [clearAllPopups], ?_, ?_, hopen, rfl, hdisp, ?_, rfl⟩
  · intro popup hmem
    obtain ⟨q, -, rfl⟩ := List.mem_map.1 hmem
    rfl
  · simp [clearAllPopups, Function.comp_def]
  · rw [hdisp]; rfl

/-! ## Theorems: `findEntryScript` -/

/-- The loop of `findEntryScript` returns the first local capture among the successive
matches. -/
theorem findEntryScriptLoop_eq_find (skip : Nat) (s : List Char) :
    findEntryScriptLoop skip s = (patternCapturesFrom skip s).find? isLocalSrc := by
  induction s generalizing skip with
  | nil => cases skip <;> simp [findEntryScriptLoop, patternCapturesFrom]
  | cons c t ih =>
    cases skip with
    | succ n => simp only [findEntryScriptLoop, patternCapturesFrom]; exact ih n
    | zero =>
      simp only [findEntryScriptLoop, patternCapturesFrom]
      cases hm : matchItems scriptTagPattern (c :: t) with
      | none => exact ih 0
      | some r =>
        obtain ⟨src, rest⟩ := r
        simp only [List.find?_cons]
        cases hl : isLocalSrc src with
        | true => simp
        | false => simpa using ih _

/-- A greedy repetition in front of a continuation with non-empty captures has non-empty
captures. -/
theorem starLoop_capture_ne_nil (k : List Char → Option MatchResult) (p : Char → Bool)
    (captured : Bool) (hk : ∀ s r, k s = some r → r.1 ≠ [])
    (s : List Char) (r : MatchResult) (h : starLoop k p captured s = some r) : r.1 ≠ [] := by
  induction s generalizing r with
  | nil => exact hk [] r (by simpa [starLoop] using h)
  | cons c t ih =>
    unfold starLoop at h
    split at h
    · cases hrec : starLoop k p captured t with
      | none => rw [hrec] at h; exact hk _ r h
      | some r1 =>
        rw [hrec] at h
        simp only [Option.some.injEq] at h
        subst h
        have := ih r1 hrec
        unfold addCaptured
        split
        · simp
        · exact this
    · exact hk _ r h

/-- A pattern with a single-character item inside the group never captures the empty text. -/
theorem matchItems_capture_ne_nil (items : List Item) (h : hasCapturedChr items = true)
    (s : List Char) (r : MatchResult) (hm : matchItems items s = some r) : r.1 ≠ [] := by
  induction items generalizing s r with
  | nil => simp [hasCapturedChr] at h
  | cons item items ih =>
    cases item with
    | chr p captured =>
      cases s with
      | nil => simp [matchItems] at hm
      | cons c t =>
        simp only [matchItems] at hm
        split at hm
        · cases hrec : matchItems items t with
          | none => simp [hrec] at hm
          | some r1 =>
            simp only [hrec, Option.map, Option.some.injEq] at hm
            subst hm
            cases captured with
            | true => simp [addCaptured]
            | false =>
              simp only [hasCapturedChr, Bool.false_or] at h
              simpa [addCaptured] using ih h t r1 hrec
        · exact Option.noConfusion hm
    | star p captured =>
      simp only [hasCapturedChr] at h
      simp only [matchItems] at hm
      exact starLoop_capture_ne_nil _ p captured (fun s r => ih h s r) s r hm

/-- Every capture of the successive matches is non-empty. -/
theorem patternCapturesFrom_ne_nil (skip : Nat) (s : List Char) :
    ∀ src ∈ patternCapturesFrom skip s, src ≠ [] := by
  induction s generalizing skip with
  | nil => cases skip <;> simp [patternCapturesFrom]
  | cons c t ih =>
    cases skip with
    | succ n => simp only [patternCapturesFrom]; exact ih n
    | zero =>
      simp only [patternCapturesFrom]
      cases hm : matchItems scriptTagPattern (c :: t) with
      | none => exact ih 0
      | some r =>
        obtain ⟨src, rest⟩ := r
        intro x hx
        rcases List.mem_cons.1 hx with rfl | hx
        · exact matchItems_capture_ne_nil scriptTagPattern (by decide) _ _ hm
        · exact ih _ x hx

/-- Method `includes` holds exactly when the text occurs as a contiguous part. -/
theorem includes_iff (src : List Char) (text : String) :
    includes src text = true ↔ text.data <:+: src := by
  unfold includes
  rw [List.any_eq_true, List.infix_iff_prefix_suffix]
  constructor
  · rintro ⟨t, ht, hp⟩
    exact ⟨t, List.isPrefixOf_iff_prefix.1 hp, (List.mem_tails _ _).1 ht⟩
  · rintro ⟨t, hp, ht⟩
    exact ⟨t, (List.mem_tails _ _).2 ht, List.isPrefixOf_iff_prefix.2 hp⟩

/-- The condition of `findEntryScript` in the words of the claim: the capture starts with
neither `https://` nor `http://` and contains no excluded module name. -/
theorem isLocalSrc_iff (src : List Char) :
    isLocalSrc src = true ↔
      ¬ ("https://".data <+: src) ∧ ¬ ("http://".data <+: src) ∧
      ∀ name ∈ externalModules, ¬ (name.data <:+: src) := by
  unfold isLocalSrc startsWith
  simp only [Bool.and_eq_true, Bool.not_eq_true', ← Bool.not_eq_true, List.any_eq_true,
    List.isPrefixOf_iff_prefix, includes_iff, not_exists, not_and, and_assoc]

/-- The condition of `findEntryScript` is the local test of the claim; this rests on
`externalModules` holding exactly `mapbox-gl`. -/
theorem isLocalSrc_eq_isLocalReference (src : String) :
    isLocalSrc src.data = isLocalReference src := by
  have h := isLocalSrc_iff src.data
  have hext : (∀ name ∈ externalModules, ¬ (name.data <:+: src.data)) ↔
      ¬ ("mapbox-gl".data <:+: src.data) := by
    simp [externalModules]
  rw [hext] at h
  rw [Bool.eq_iff_iff, h, isLocalReference, decide_eq_true_iff]
  constructor
  · rintro ⟨h1, h2, h3⟩; exact ⟨h2, h1, h3⟩
  · rintro ⟨h1, h2, h3⟩; exact ⟨h2, h1, h3⟩

/-- Lines 95-107 of `build` without an entry argument: the error of line 106 when
`findEntryScript` returns `null`, otherwise no throw there and `entryScript` is the script
found. -/
theorem buildEntryScript_without_entryArg (entryArg : Option String) (html : String)
    (harg : truthy entryArg = false) :
    (findEntryScript html = none →
      buildEntryScript entryArg html = .error "No valid entry script found.") ∧
    (∀ src, findEntryScript html = some src → buildEntryScript entryArg html = .ok src) := by
  constructor
  · intro hnone
    unfold buildEntryScript
    rw [if_neg (by rw [harg]; exact Bool.false_ne_true)]
    simp [hnone, truthy]
  · intro src hsome
    have hfind := findEntryScriptLoop_eq_find 0 html.data
    unfold findEntryScript at hsome
    obtain ⟨l, hl, rfl⟩ := Option.map_eq_some'.1 hsome
    rw [hfind] at hl
    have hne : l ≠ [] := patternCapturesFrom_ne_nil 0 html.data l (List.mem_of_find?_eq_some hl)
    have hstr : (String.mk l != "") = true := by
      rw [bne_iff_ne]
      intro h
      exact hne (congrArg String.data h)
    have hfe : findEntryScript html = some (String.mk l) := by
      unfold findEntryScript
      rw [hfind, hl]
      rfl
    unfold buildEntryScript
    rw [if_neg (by rw [harg]; exact Bool.false_ne_true)]
    simp [hfe, truthy, hstr, templateString]

/-- What the code does on every template: `findEntryScript` returns the first capture of
`scriptTagPattern`, among its successive matches, that passes the local test, it returns `null`
exactly when no capture passes, and lines 95-107 of `build` without an entry argument then
throw `No valid entry script found.`. -/
theorem findEntryScript_eq_first_local_capture (html : String) :
    findEntryScript html = (patternCaptures html).find? isLocalReference ∧
    (findEntryScript html = none ↔
      ∀ src ∈ patternCaptures html, isLocalReference src = false) ∧
    (∀ src, findEntryScript html = some src → isLocalReference src = true) ∧
    (findEntryScript html = none →
      buildEntryScript none html = .error "No valid entry script found.") ∧
    (∀ src, findEntryScript html = some src → buildEntryScript none html = .ok src) ∧
    findEntryScript templateCdnThenLocal = some "scripts/map.js" ∧
    patternCaptures templateCdnThenLocal =
      ["https://x/mapbox-gl.js", "scripts/map.js", "b.js"] ∧
    findEntryScript templateCdnOnly = none ∧
    buildEntryScript none templateCdnOnly = .error "No valid entry script found." := by
  have hfind : findEntryScript html = (patternCaptures html).find? isLocalReference := by
    have hfun : (fun src : String => isLocalSrc src.data) = isLocalReference :=
      funext isLocalSrc_eq_isLocalReference
    unfold findEntryScript patternCaptures
    rw [findEntryScriptLoop_eq_find, List.find?_map, ← hfun]
    rfl
  refine ⟨hfind, ?_, ?_, (buildEntryScript_without_entryArg none html rfl).1,
    (buildEntryScript_without_entryArg none html rfl).2, by decide, by decide, by decide, ?_⟩
  · rw [hfind, List.find?_eq_none]
    simp
  · intro src hsome
    rw [hfind] at hsome
    exact List.find?_some hsome
  · exact (buildEntryScript_without_entryArg none templateCdnOnly rfl).1 (by decide)

/-- C10, the code at the failing inputs. On the template whose first script element has the
local `src` `a.js` and a `data-src` attribute with a CDN address, followed by an element with
`src` `b.js`, the claim gives `a.js` while `findEntryScript` returns `b.js`: the capture of
the first match is the `data-src` value. On the template whose only script element has a CDN
`src` and a local `data-src`, no script element has a local `src`, yet `findEntryScript`
returns `local.js` and line 106 of `build` does not throw. On the template whose first
element refers to the module `mapbox-gl` by a relative path the code and the claim agree. -/
theorem findEntryScript_misses_first_local_tag :
    renderTemplate tagsSrcThenDataSrc =
      "<script src=\"a.js\" data-src=\"https://cdn/x.js\"></script>" ++
        "<script src=\"b.js\"></script>" ∧
    tagsSrcThenDataSrc.map ScriptTag.src = [some "a.js", some "b.js"] ∧
    firstLocalScriptSrc tagsSrcThenDataSrc = some "a.js" ∧
    patternCaptures (renderTemplate tagsSrcThenDataSrc) = ["https://cdn/x.js", "b.js"] ∧
    findEntryScript (renderTemplate tagsSrcThenDataSrc) = some "b.js" ∧
    renderTemplate tagsCdnWithLocalDataSrc =
      "<script src=\"https://cdn/x.js\" data-src=\"local.js\"></script>" ∧
    tagsCdnWithLocalDataSrc.map ScriptTag.src = [some "https://cdn/x.js"] ∧
    firstLocalScriptSrc tagsCdnWithLocalDataSrc = none ∧
    findEntryScript (renderTemplate tagsCdnWithLocalDataSrc) = some "local.js" ∧
    buildEntryScript none (renderTemplate tagsCdnWithLocalDataSrc) = .ok "local.js" ∧
    firstLocalScriptSrc tagsModuleThenLocal = some "scripts/map.js" ∧
    findEntryScript (renderTemplate tagsModuleThenLocal) = some "scripts/map.js" := by
  refine ⟨by decide, by decide, by decide, by decide, by decide, by decide, by decide,
    by decide, by decide, ?_, by decide, by decide⟩
  exact (buildEntryScript_without_entryArg none _ rfl).2 _ (by decide)

/-! ## Theorems: listing completeness -/

/-- A feature of the sequence whose key stands, within the sequence, only for one defined
title and for its own coordinates is represented in the listing by an entry with that title and
those coordinates. -/
theorem updateVisibleFeatures_represented {N : Type} (numToString : N → String)
    (visibleFeatures : List (Feature N)) (feature : Feature N) (title : String)
    (hmem : feature ∈ visibleFeatures)
    (hkey : ∀ g ∈ visibleFeatures,
      featureKey numToString g = featureKey numToString feature →
      g.properties.get "title" = some title ∧
        g.geometry.coordinates = feature.geometry.coordinates) :
    ∃ item ∈ updateVisibleFeatures numToString visibleFeatures,
      item.textContent = title ∧
      item.feature.geometry.coordinates = feature.geometry.coordinates := by
  obtain ⟨g, hg, hgk⟩ := uniqueFilter_covers numToString [] visibleFeatures feature hmem rfl
  have hgv : g ∈ visibleFeatures := (uniqueFilter_sublist numToString [] visibleFeatures).subset hg
  obtain ⟨hgt, hgc⟩ := hkey g hgv hgk
  refine ⟨{ href := "#", textContent := title, feature := g }, ?_, rfl, hgc⟩
  exact (mem_updateVisibleFeatures numToString visibleFeatures _).2 ⟨hg, hgt, rfl⟩

/-- C11, the code at the failing input: on the rendered sequence `[untitled at [1,2],
"undefined" at [1,2]]` the second feature has a defined title, both features get the key
`1,2-undefined`, the dedup step keeps only the untitled one, and the listing is empty, so the
titled feature has no entry. -/
theorem updateVisibleFeatures_titled_feature_lost :
    renderedUndefinedTitle ∈ [renderedUntitled, renderedUndefinedTitle] ∧
    renderedUndefinedTitle.properties.get "title" = some "undefined" ∧
    renderedUntitled.properties.get "title" = none ∧
    featureKey intToString renderedUntitled = "1,2-undefined" ∧
    featureKey intToString renderedUndefinedTitle = "1,2-undefined" ∧
    uniqueFeatures intToString [renderedUntitled, renderedUndefinedTitle] =
      [renderedUntitled] ∧
    updateVisibleFeatures intToString [renderedUntitled, renderedUndefinedTitle] = [] ∧
    ¬ ∃ item ∈ updateVisibleFeatures intToString [renderedUntitled, renderedUndefinedTitle],
      item.textContent = "undefined" ∧
      item.feature.geometry.coordinates = renderedUndefinedTitle.geometry.coordinates := by
  have hempty :
      updateVisibleFeatures intToString [renderedUntitled, renderedUndefinedTitle] = [] := by
    decide
  refine ⟨by decide, by decide, by decide, by decide, by decide, by decide, hempty, ?_⟩
  rw [hempty]
  rintro ⟨item, hitem, -⟩
  exact List.not_mem_nil item hitem

/-! ## Theorems: the array `popups` over time -/

/-- The function `clearAllPopups` keeps the length of the array. -/
theorem length_clearAllPopups {N : Type} (popups : List (Popup N)) :
    (clearAllPopups popups).length = popups.length := by
  simp [clearAllPopups]

/-- The function `clearAllPopups` keeps every popup in place, with its anchor and content. -/
theorem content_clearAllPopups {N : Type} (popups : List (Popup N)) :
    (clearAllPopups popups).map Popup.content = popups.map Popup.content := by
  simp [clearAllPopups, Popup.content, Function.comp_def]

/-- The function `createPopupForFeature` pushes the popup it returns, and nothing else. -/
theorem createPopupForFeature_push {N : Type} (popups : List (Popup N)) (feature : Feature N) :
    (createPopupForFeature popups feature).2 =
      popups ++ [(createPopupForFeature popups feature).1] := rfl

/-- The listener of one action leaves the earlier popups in place and appends the popup it
constructed. -/
theorem content_handlePopupEvent {N : Type} (popups : List (Popup N)) (event : PopupEvent N) :
    (handlePopupEvent popups event).map Popup.content =
      popups.map Popup.content ++ [(popupCreatedBy popups event).content] := by
  cases event with
  | mapClick feature =>
    simp [handlePopupEvent, unclusteredPointClick, popupCreatedBy, createPopupForFeature_push]
  | listingActivation feature =>
    have h : (listingItemClick popups feature).2 =
        clearAllPopups popups ++ [(createPopupForFeature (clearAllPopups popups) feature).1] :=
      rfl
    simp only [handlePopupEvent, popupCreatedBy, h, List.map_append, List.map_cons,
      List.map_nil, content_clearAllPopups]

/-- Over a sequence of actions the array is the initial array followed by the popups
constructed, in order, up to their being attached to the map. -/
theorem content_runPopupEvents {N : Type} (popups : List (Popup N))
    (events : List (PopupEvent N)) :
    (runPopupEvents popups events).map Popup.content =
      popups.map Popup.content ++ (popupsCreated popups events).map Popup.content := by
  induction events generalizing popups with
  | nil => simp [runPopupEvents, popupsCreated]
  | cons event events ih =>
    simp only [runPopupEvents, popupsCreated, List.map_cons]
    rw [ih, content_handlePopupEvent, List.append_assoc]
    rfl

/-- Each action constructs exactly one popup. -/
theorem length_popupsCreated {N : Type} (popups : List (Popup N))
    (events : List (PopupEvent N)) :
    (popupsCreated popups events).length = events.length := by
  induction events generalizing popups with
  | nil => rfl
  | cons event events ih => simp [popupsCreated, ih]

/-- C12: the array `popups` never shrinks: `clearAllPopups` leaves its length and its elements
(anchor and content, in place), `createPopupForFeature` appends exactly one element, and after
any sequence of map clicks and listing activations the array is the initial array followed by
the popups constructed since, so its length is the initial length plus the number of popups
constructed, which from the empty array of the `load` handler is the number of popups ever
created. -/
theorem popups_never_shrinks {N : Type} (popups : List (Popup N))
    (events : List (PopupEvent N)) (feature : Feature N) :
    (clearAllPopups popups).length = popups.length ∧
    (clearAllPopups popups).map Popup.content = popups.map Popup.content ∧
    (createPopupForFeature popups feature).2 =
      popups ++ [(createPopupForFeature popups feature).1] ∧
    (createPopupForFeature popups feature).2.length = popups.length + 1 ∧
    (runPopupEvents popups events).map Popup.content =
      popups.map Popup.content ++ (popupsCreated popups events).map Popup.content ∧
    (runPopupEvents popups events).length =
      popups.length + (popupsCreated popups events).length ∧
    popups.length ≤ (runPopupEvents popups events).length ∧
    (runPopupEvents ([] : List (Popup N)) events).length =
      (popupsCreated ([] : List (Popup N)) events).length ∧
    (popupsCreated ([] : List (Popup N)) events).length = events.length := by
  have hlen : ∀ ps : List (Popup N), (runPopupEvents ps events).length =
      ps.length + (popupsCreated ps events).length := by
    intro ps
    have h := congrArg List.length (content_runPopupEvents ps events)
    simpa using h
  refine ⟨length_clearAllPopups popups, content_clearAllPopups popups, rfl, ?_,
    content_runPopupEvents popups events, hlen popups, ?_, ?_,
    length_popupsCreated [] events⟩
  · rw [createPopupForFeature_push]; simp
  · rw [hlen popups]; exact Nat.le_add_right _ _
  · rw [hlen []]; simp

end InteractiveMap
